import Mathlib

/-!
A verification development for the ERA5 PCA utilities
(`src/utils/ipca_era5.py` and `src/utils/pca_era5.py`).

The Python functions are shallowly embedded as Lean functions:
Python `int` arithmetic on indices is modelled with `Nat` (with the one
signed subtraction `nSample - batch_end` carried out in `Int`, exactly as
Python evaluates it), pandas/list slices become `List.drop`/`List.take`,
and the `while` loops are modelled with an explicit fuel argument that is
large enough for every terminating execution of the source loop.
-/

namespace IpcaEra5

/--
The index bookkeeping of the `while batch_start < nSample` loop of
`fit_ipca_partial` (src/utils/ipca_era5.py, lines 83-100): the list of
half-open ranges `(batch_start, limit)` whose slices
`finfo['xuri'].iloc[batch_start:limit]` the loop reads, in emission order.
`limit0` is line 90 (`limit = min(batch_end, nSample)`) and the conditional
reassignment is lines 91-93 (`if n_component > (nSample - batch_end): limit
= nSample`), with the subtraction taken in `Int` as in Python.  The `fuel`
argument models the `while` loop; the loop advances `batch_start` to
`limit` and `batch_end` to `limit + batch_size` (lines 98-99).  Logging and
the `batch_count` counter are omitted as they do not affect the ranges.
-/
def fitPlanLoop (nSample batch_size n_component : Nat) : Nat → Nat → Nat → List (Nat × Nat)
  | 0, _, _ => []
  | fuel + 1, batch_start, batch_end =>
    if batch_start < nSample then
      let limit0 := min batch_end nSample
      let limit := if (n_component : Int) > (nSample : Int) - (batch_end : Int) then nSample
        else limit0
      (batch_start, limit) ::
        fitPlanLoop nSample batch_size n_component fuel limit (limit + batch_size)
    else
      []

/--
The full batch plan of the fit pass: the loop of lines 83-100 started from
`batch_start = 0`, `batch_end = batch_size` (lines 84-85).  Fuel
`nSample + 1` covers every terminating execution of the source loop, since
each iteration strictly increases `batch_start` whenever `batch_size ≥ 1`.
-/
def fitPlan (nSample batch_size n_component : Nat) : List (Nat × Nat) :=
  fitPlanLoop nSample batch_size n_component (nSample + 1) 0 batch_size

/--
The index bookkeeping of the `while batch_start < nSample` loop of
`transform_ipca_partial` (src/utils/ipca_era5.py, lines 111-130),
translated separately from its own source lines: `limit0` is line 120, the
conditional reassignment is lines 121-123, and the increments are lines
128-129.  Here `n_component` stands for `model.n_components_` (line 110).
-/
def transformPlanLoop (nSample batch_size n_component : Nat) : Nat → Nat → Nat → List (Nat × Nat)
  | 0, _, _ => []
  | fuel + 1, batch_start, batch_end =>
    if batch_start < nSample then
      let limit0 := min batch_end nSample
      let limit := if (n_component : Int) > (nSample : Int) - (batch_end : Int) then nSample
        else limit0
      (batch_start, limit) ::
        transformPlanLoop nSample batch_size n_component fuel limit (limit + batch_size)
    else
      []

/--
The full batch plan of the transform pass: the loop of lines 111-130
started from `batch_start = 0`, `batch_end = batch_size` (lines 112-113).
-/
def transformPlan (nSample batch_size n_component : Nat) : List (Nat × Nat) :=
  transformPlanLoop nSample batch_size n_component (nSample + 1) 0 batch_size

/--
`covers lo hi rs` states that the ranges `rs` tile the interval
`[lo, hi)` exactly, in order: the first range starts at `lo`, each range is
non-empty with its end at most `hi`, consecutive ranges are adjacent (so
the ranges are contiguous, pairwise disjoint and increasing), and the last
range ends at `hi` (an empty list is allowed only when `lo = hi`).
-/
def covers : Nat → Nat → List (Nat × Nat) → Prop
  | lo, hi, [] => lo = hi
  | lo, hi, r :: rest => r.1 = lo ∧ lo < r.2 ∧ r.2 ≤ hi ∧ covers r.2 hi rest

instance instDecidableCovers : (lo hi : Nat) → (rs : List (Nat × Nat)) → Decidable (covers lo hi rs)
  | _, _, [] => by unfold covers; infer_instance
  | lo, hi, r :: rest => by
    unfold covers
    have : Decidable (covers r.2 hi rest) := instDecidableCovers r.2 hi rest
    infer_instance

/--
Run-time failures of the Python code that the embedding distinguishes.
`unboundLocalFlist` is the `UnboundLocalError` raised by line 78 of
`fit_ipca_partial` (`flist = flist.sample(...)` reads the local name
`flist`, which is never assigned before that line — the parameter is named
`finfo`).  `insufficientBatchSize` is the `ValueError` raised by sklearn's
`IncrementalPCA.partial_fit` when a batch has fewer rows than the number of
requested components.  The code contains no configuration-validation error:
no further constructor is needed.
-/
inductive PyError
  | unboundLocalFlist
  | insufficientBatchSize
deriving DecidableEq, Repr

/--
The body of the fit loop of `fit_ipca_partial` (src/utils/ipca_era5.py,
lines 83-102), with the manifest modelled as the list `finfo` of its rows.
Each iteration computes `limit` exactly as in lines 90-93, reads the slice
`finfo['xuri'].iloc[batch_start:limit]` (line 95, `read_multiple_era5`) —
recorded by appending the slice to the I/O trace `reads` — then advances
the indices (lines 98-99) and calls `ipca.partial_fit(data)` (line 102).
`partial_fit` is modelled from the spec (§4.2): it fails with
`InsufficientBatchSize` when the batch row count is below `n_component`,
and this failure is raised only after the batch has already been read.
The result is the I/O trace paired with the loop's outcome.
-/
def fitLoop (finfo : List α) (n_component batch_size : Nat) :
    Nat → Nat → Nat → List (List α) → List (List α) × Except PyError Unit
  | 0, _, _, reads => (reads, Except.ok ())
  | fuel + 1, batch_start, batch_end, reads =>
    if batch_start < finfo.length then
      let limit0 := min batch_end finfo.length
      let limit := if (n_component : Int) > (finfo.length : Int) - (batch_end : Int) then
          finfo.length
        else limit0
      let data := (finfo.drop batch_start).take (limit - batch_start)
      if data.length < n_component then
        (reads ++ [data], Except.error PyError.insufficientBatchSize)
      else
        fitLoop finfo n_component batch_size fuel limit (limit + batch_size) (reads ++ [data])
    else
      (reads, Except.ok ())

/--
`fit_ipca_partial` (src/utils/ipca_era5.py, lines 74-104).  When
`rseed != 0` the function executes line 78, which raises
`UnboundLocalError` before any file is read (empty I/O trace); otherwise it
runs the fit loop of lines 83-102 from `batch_start = 0`,
`batch_end = batch_size`.  The returned pair is the list of batches read
(in order) and the outcome; the fitted model itself carries no information
relevant to the claims beyond the batches it consumed.
-/
def fit_ipca_partial (finfo : List α) (n_component batch_size : Nat) (rseed : Int) :
    List (List α) × Except PyError Unit :=
  if rseed ≠ 0 then ([], Except.error PyError.unboundLocalFlist)
  else fitLoop finfo n_component batch_size (finfo.length + 1) 0 batch_size []

/--
The body of the transform loop of `transform_ipca_partial`
(src/utils/ipca_era5.py, lines 117-136).  Each iteration computes `limit`
as in lines 120-123, reads the slice `finfo['xuri'].iloc[batch_start:limit]`
(line 125), advances the indices (lines 128-129), applies
`model.transform` to the batch — modelled as the row-wise projection
`data.map project` — and folds the result into the accumulator
`proj_full` exactly as lines 132-136 do (`None` is replaced by the first
batch, later batches are appended by `np.vstack`).
-/
def transformLoop (finfo : List α) (project : α → β) (n_component batch_size : Nat) :
    Nat → Nat → Nat → Option (List β) → Option (List β)
  | 0, _, _, proj_full => proj_full
  | fuel + 1, batch_start, batch_end, proj_full =>
    if batch_start < finfo.length then
      let limit0 := min batch_end finfo.length
      let limit := if (n_component : Int) > (finfo.length : Int) - (batch_end : Int) then
          finfo.length
        else limit0
      let data := (finfo.drop batch_start).take (limit - batch_start)
      let proj_batch := data.map project
      let proj_full2 := match proj_full with
        | none => some proj_batch
        | some p => some (p ++ proj_batch)
      transformLoop finfo project n_component batch_size fuel limit (limit + batch_size) proj_full2
    else
      proj_full

/--
`transform_ipca_partial` (src/utils/ipca_era5.py, lines 107-138): runs the
transform loop from `batch_start = 0`, `batch_end = batch_size` (lines
112-113) with the accumulator initialized to `None` (line 116) and returns
the final accumulator (line 138).  `n_component` stands for
`model.n_components_` (line 110) and `project` for the row-wise action of
`model.transform`.
-/
def transform_ipca_partial (finfo : List α) (project : α → β) (n_component batch_size : Nat) :
    Option (List β) :=
  transformLoop finfo project n_component batch_size (finfo.length + 1) 0 batch_size none

/--
Python's `str.replace(pattern, '')` on character lists, as used at line 42
of `list_era5_files` (`fn.replace(suffix,'')`): scan left to right and
delete each leftmost occurrence of the pattern, continuing after the
deleted occurrence.  An empty pattern leaves the string unchanged (as
`str.replace('','')` does).  The fuel argument (one unit per examined
character) makes the recursion structural; `pyRemove` supplies fuel equal
to the string length, which every step respects since a step either
deletes at least one character or keeps exactly one.
-/
def pyRemoveAux (pattern : List Char) : Nat → List Char → List Char
  | 0, s => s
  | fuel + 1, s =>
    match s with
    | [] => []
    | c :: cs =>
      if pattern ≠ [] ∧ pattern.isPrefixOf s then
        pyRemoveAux pattern fuel (s.drop pattern.length)
      else
        c :: pyRemoveAux pattern fuel cs

/-- All-occurrence deletion of `pattern`, i.e. Python `s.replace(pattern, '')`. -/
def pyRemove (pattern s : List Char) : List Char :=
  pyRemoveAux pattern s.length s

/--
One row of the manifest DataFrame built by `list_era5_files`: the derived
`timestamp` and the joined path `xuri` (both modelled as character lists so
that every string operation of the source is computable in the kernel).
-/
structure FileEntry where
  timestamp : List Char
  xuri : List Char
deriving DecidableEq, Repr

/--
`list_era5_files` (src/utils/ipca_era5.py lines 34-44; the copy in
src/utils/pca_era5.py lines 34-44 is identical).  The `os.walk` input is
modelled as the list of `(root, fn)` pairs the nested loops of lines 39-40
visit, in visit order.  A file is kept iff `fn.endswith(suffix)` (line 41);
its timestamp is `fn.replace(suffix,'')[:10]` (line 42) — note
`str.replace` deletes every occurrence of the suffix, not only a trailing
one — and its locator is `os.path.join(root, fn)` (line 43), modelled as
`root ++ "/" ++ fn`.  The final `sort_values('timestamp')` (line 44) is an
ascending sort by timestamp, modelled with insertion sort (the claims
depend only on sortedness and on the multiset of rows).
-/
def list_era5_files (walk : List (List Char × List Char)) (suffix : List Char) :
    List FileEntry :=
  let xfiles := walk.filterMap fun rf =>
    if suffix.isSuffixOf rf.2 then
      some { timestamp := (pyRemove suffix rf.2).take 10, xuri := rf.1 ++ [Char.ofNat 47] ++ rf.2 }
    else none
  xfiles.insertionSort fun a b => a.timestamp ≤ b.timestamp

/--
The timestamp assignment as the spec words it ("the first 10 characters of
the filename after stripping suffix"): remove one trailing occurrence of
the suffix, then take the first 10 characters.  Stated from the spec's
words, for comparison with the source's `fn.replace(suffix,'')[:10]`.
-/
def specStripEndTimestamp (suffix fn : List Char) : List Char :=
  (fn.take (fn.length - suffix.length)).take 10

/--
The value the source's lines 90-93 (and 120-123) assign to `limit`, as a
function of the quantities it reads.  Both loops compute
`limit = min(batch_end, nSample)` and then reassign `limit = nSample` when
`n_component > nSample - batch_end`; this function is used only to state
unfolding lemmas about the loops.
-/
def planLimit (nSample n_component batch_end : Nat) : Nat :=
  if (n_component : Int) > (nSample : Int) - (batch_end : Int) then nSample
  else min batch_end nSample

lemma planLimit_le (nSample n_component batch_end : Nat) :
    planLimit nSample n_component batch_end ≤ nSample := by
  unfold planLimit
  split_ifs with h
  · exact le_refl _
  · exact min_le_right _ _

lemma lt_planLimit (nSample n_component batch_start batch_size : Nat) (hbs : 1 ≤ batch_size)
    (h : batch_start < nSample) :
    batch_start < planLimit nSample n_component (batch_start + batch_size) := by
  unfold planLimit
  split_ifs with hm
  · exact h
  · exact lt_min (by omega) h

lemma planLimit_of_not_merge (nSample n_component batch_end : Nat)
    (h : ¬ (n_component : Int) > (nSample : Int) - (batch_end : Int)) :
    planLimit nSample n_component batch_end = batch_end ∧ batch_end + n_component ≤ nSample := by
  have hle : batch_end + n_component ≤ nSample := by omega
  refine ⟨?_, hle⟩
  unfold planLimit
  rw [if_neg h]
  exact min_eq_left (by omega)

lemma fitPlanLoop_succ (nSample batch_size n_component fuel batch_start batch_end : Nat) :
    fitPlanLoop nSample batch_size n_component (fuel + 1) batch_start batch_end =
      if batch_start < nSample then
        (batch_start, planLimit nSample n_component batch_end) ::
          fitPlanLoop nSample batch_size n_component fuel
            (planLimit nSample n_component batch_end)
            (planLimit nSample n_component batch_end + batch_size)
      else [] := rfl

lemma fitPlanLoop_nil (nSample batch_size n_component : Nat) :
    ∀ fuel batch_start batch_end, nSample ≤ batch_start →
      fitPlanLoop nSample batch_size n_component fuel batch_start batch_end = []
  | 0, _, _, _ => rfl
  | fuel + 1, batch_start, batch_end, h => by
    rw [fitPlanLoop_succ, if_neg (by omega)]

lemma fitPlanLoop_covers (nSample batch_size n_component : Nat) (hbs : 1 ≤ batch_size) :
    ∀ fuel batch_start, batch_start ≤ nSample → nSample - batch_start ≤ fuel →
      covers batch_start nSample
        (fitPlanLoop nSample batch_size n_component fuel batch_start (batch_start + batch_size))
  | 0, batch_start, hle, hfuel => by
    have hb : batch_start = nSample := by omega
    subst hb
    simp [fitPlanLoop, covers]
  | fuel + 1, batch_start, hle, hfuel => by
    by_cases h : batch_start < nSample
    · rw [fitPlanLoop_succ, if_pos h]
      have h1 : batch_start < planLimit nSample n_component (batch_start + batch_size) :=
        lt_planLimit nSample n_component batch_start batch_size hbs h
      have h2 : planLimit nSample n_component (batch_start + batch_size) ≤ nSample :=
        planLimit_le nSample n_component (batch_start + batch_size)
      have htail :=
        fitPlanLoop_covers nSample batch_size n_component hbs fuel
          (planLimit nSample n_component (batch_start + batch_size)) h2 (by omega)
      exact ⟨rfl, h1, h2, htail⟩
    · have hb : batch_start = nSample := by omega
      subst hb
      rw [fitPlanLoop_succ, if_neg h]
      simp [covers]

lemma fitPlanLoop_len_ge (nSample batch_size n_component : Nat)
    (hncbs : n_component ≤ batch_size) :
    ∀ fuel batch_start, n_component ≤ nSample - batch_start →
      ∀ r ∈ fitPlanLoop nSample batch_size n_component fuel batch_start
          (batch_start + batch_size),
        n_component ≤ r.2 - r.1
  | 0, batch_start, hinv => by
    intro r hr
    simp [fitPlanLoop] at hr
  | fuel + 1, batch_start, hinv => by
    intro r hr
    by_cases h : batch_start < nSample
    · rw [fitPlanLoop_succ, if_pos h] at hr
      by_cases hm : (n_component : Int) >
          (nSample : Int) - ((batch_start + batch_size : Nat) : Int)
      · have hL : planLimit nSample n_component (batch_start + batch_size) = nSample := by
          unfold planLimit
          rw [if_pos hm]
        rw [hL] at hr
        rcases List.mem_cons.mp hr with h1 | h2
        · subst h1
          simpa using hinv
        · rw [fitPlanLoop_nil nSample batch_size n_component fuel nSample
            (nSample + batch_size) (le_refl nSample)] at h2
          simp at h2
      · obtain ⟨hL, hrest⟩ :=
          planLimit_of_not_merge nSample n_component (batch_start + batch_size) hm
        rw [hL] at hr
        rcases List.mem_cons.mp hr with h1 | h2
        · subst h1
          simp
          omega
        · exact fitPlanLoop_len_ge nSample batch_size n_component hncbs fuel
            (batch_start + batch_size) (by omega) r h2
    · rw [fitPlanLoop_nil nSample batch_size n_component (fuel + 1) batch_start
        (batch_start + batch_size) (by omega)] at hr
      simp at hr

lemma fitPlanLoop_eq_transformPlanLoop (nSample batch_size n_component : Nat) :
    ∀ fuel batch_start batch_end,
      fitPlanLoop nSample batch_size n_component fuel batch_start batch_end =
        transformPlanLoop nSample batch_size n_component fuel batch_start batch_end
  | 0, _, _ => rfl
  | fuel + 1, batch_start, batch_end => by
    unfold fitPlanLoop transformPlanLoop
    by_cases h : batch_start < nSample
    · rw [if_pos h, if_pos h]
      simp only [fitPlanLoop_eq_transformPlanLoop nSample batch_size n_component fuel]
    · rw [if_neg h, if_neg h]

lemma fitPlan_of_lt (total batch_size min_batch : Nat) (h0 : 0 < total)
    (h : total < min_batch) :
    fitPlan total batch_size min_batch = [(0, total)] := by
  unfold fitPlan
  rw [fitPlanLoop_succ, if_pos h0]
  have hL : planLimit total min_batch batch_size = total := by
    unfold planLimit
    rw [if_pos (by omega)]
  rw [hL, fitPlanLoop_nil total batch_size min_batch total total (total + batch_size)
    (le_refl total)]

lemma fitPlan_zero (batch_size min_batch : Nat) :
    fitPlan 0 batch_size min_batch = [] := by
  unfold fitPlan
  rw [fitPlanLoop_succ, if_neg (by omega)]

lemma fitLoop_succ (finfo : List α) (n_component batch_size fuel batch_start batch_end : Nat)
    (reads : List (List α)) :
    fitLoop finfo n_component batch_size (fuel + 1) batch_start batch_end reads =
      if batch_start < finfo.length then
        if ((finfo.drop batch_start).take
            (planLimit finfo.length n_component batch_end - batch_start)).length <
            n_component then
          (reads ++ [(finfo.drop batch_start).take
            (planLimit finfo.length n_component batch_end - batch_start)],
            Except.error PyError.insufficientBatchSize)
        else
          fitLoop finfo n_component batch_size fuel
            (planLimit finfo.length n_component batch_end)
            (planLimit finfo.length n_component batch_end + batch_size)
            (reads ++ [(finfo.drop batch_start).take
              (planLimit finfo.length n_component batch_end - batch_start)])
      else (reads, Except.ok ()) := rfl

lemma fitLoop_done (finfo : List α) (n_component batch_size : Nat) :
    ∀ fuel batch_start batch_end reads, finfo.length ≤ batch_start →
      fitLoop finfo n_component batch_size fuel batch_start batch_end reads =
        (reads, Except.ok ())
  | 0, _, _, _, _ => rfl
  | fuel + 1, batch_start, batch_end, reads, h => by
    rw [fitLoop_succ, if_neg (by omega)]

lemma fitLoop_reads_extend (finfo : List α) (n_component batch_size : Nat) :
    ∀ fuel batch_start batch_end reads,
      ∃ extra,
        (fitLoop finfo n_component batch_size fuel batch_start batch_end reads).1 =
          reads ++ extra
  | 0, _, _, reads => ⟨[], (List.append_nil reads).symm⟩
  | fuel + 1, batch_start, batch_end, reads => by
    rw [fitLoop_succ]
    by_cases h : batch_start < finfo.length
    · rw [if_pos h]
      by_cases h2 : ((finfo.drop batch_start).take
          (planLimit finfo.length n_component batch_end - batch_start)).length < n_component
      · rw [if_pos h2]
        exact ⟨_, rfl⟩
      · rw [if_neg h2]
        obtain ⟨extra, hex⟩ :=
          fitLoop_reads_extend finfo n_component batch_size fuel
            (planLimit finfo.length n_component batch_end)
            (planLimit finfo.length n_component batch_end + batch_size)
            (reads ++ [(finfo.drop batch_start).take
              (planLimit finfo.length n_component batch_end - batch_start)])
        rw [hex, List.append_assoc]
        exact ⟨_, rfl⟩
    · rw [if_neg h]
      exact ⟨[], (List.append_nil reads).symm⟩

lemma fitLoop_ok (finfo : List α) (n_component batch_size : Nat) (hbs : 1 ≤ batch_size)
    (hncbs : n_component ≤ batch_size) :
    ∀ fuel batch_start reads, n_component ≤ finfo.length - batch_start →
      finfo.length - batch_start ≤ fuel →
      (∀ b ∈ reads, n_component ≤ b.length) →
      (fitLoop finfo n_component batch_size fuel batch_start (batch_start + batch_size)
          reads).2 = Except.ok () ∧
        ∀ b ∈ (fitLoop finfo n_component batch_size fuel batch_start
            (batch_start + batch_size) reads).1, n_component ≤ b.length
  | 0, batch_start, reads, hinv, hfuel, hreads => ⟨rfl, hreads⟩
  | fuel + 1, batch_start, reads, hinv, hfuel, hreads => by
    rw [fitLoop_succ]
    by_cases h : batch_start < finfo.length
    · rw [if_pos h]
      by_cases hm : (n_component : Int) >
          (finfo.length : Int) - ((batch_start + batch_size : Nat) : Int)
      · have hL : planLimit finfo.length n_component (batch_start + batch_size) =
            finfo.length := by
          unfold planLimit
          rw [if_pos hm]
        rw [hL]
        have hdata : ((finfo.drop batch_start).take
            (finfo.length - batch_start)).length = finfo.length - batch_start := by
          simp
        rw [if_neg (by omega)]
        rw [fitLoop_done finfo n_component batch_size fuel finfo.length
          (finfo.length + batch_size) _ (le_refl _)]
        refine ⟨rfl, ?_⟩
        intro b hb
        rcases List.mem_append.mp hb with h1 | h2
        · exact hreads b h1
        · simp at h2
          subst h2
          omega
      · obtain ⟨hL, hrest⟩ :=
          planLimit_of_not_merge finfo.length n_component (batch_start + batch_size) hm
        have harg : batch_start + batch_size - batch_start = batch_size := by omega
        rw [hL, harg]
        have hdata : ((finfo.drop batch_start).take batch_size).length = batch_size := by
          rw [List.length_take, List.length_drop]
          omega
        rw [if_neg (by omega)]
        exact fitLoop_ok finfo n_component batch_size hbs hncbs fuel
          (batch_start + batch_size) _ (by omega) (by omega)
          (by
            intro b hb
            rcases List.mem_append.mp hb with h1 | h2
            · exact hreads b h1
            · simp at h2
              subst h2
              omega)
    · rw [if_neg h]
      exact ⟨rfl, hreads⟩

lemma transformLoop_succ (finfo : List α) (project : α → β)
    (n_component batch_size fuel batch_start batch_end : Nat) (proj_full : Option (List β)) :
    transformLoop finfo project n_component batch_size (fuel + 1) batch_start batch_end
        proj_full =
      if batch_start < finfo.length then
        transformLoop finfo project n_component batch_size fuel
          (planLimit finfo.length n_component batch_end)
          (planLimit finfo.length n_component batch_end + batch_size)
          (match proj_full with
            | none => some (((finfo.drop batch_start).take
                (planLimit finfo.length n_component batch_end - batch_start)).map project)
            | some p => some (p ++ ((finfo.drop batch_start).take
                (planLimit finfo.length n_component batch_end - batch_start)).map project))
      else proj_full := rfl

lemma transformLoop_some (finfo : List α) (project : α → β) (n_component batch_size : Nat)
    (hbs : 1 ≤ batch_size) :
    ∀ fuel batch_start acc, batch_start ≤ finfo.length →
      finfo.length - batch_start ≤ fuel →
      transformLoop finfo project n_component batch_size fuel batch_start
          (batch_start + batch_size) (some acc) =
        some (acc ++ (finfo.drop batch_start).map project)
  | 0, batch_start, acc, hle, hfuel => by
    have hb : batch_start = finfo.length := by omega
    subst hb
    simp [transformLoop]
  | fuel + 1, batch_start, acc, hle, hfuel => by
    rw [transformLoop_succ]
    by_cases h : batch_start < finfo.length
    · rw [if_pos h]
      have h1 : batch_start < planLimit finfo.length n_component (batch_start + batch_size) :=
        lt_planLimit finfo.length n_component batch_start batch_size hbs h
      have h2 : planLimit finfo.length n_component (batch_start + batch_size) ≤
          finfo.length :=
        planLimit_le finfo.length n_component (batch_start + batch_size)
      rw [transformLoop_some finfo project n_component batch_size hbs fuel
        (planLimit finfo.length n_component (batch_start + batch_size)) _ h2 (by omega)]
      congr 1
      rw [List.append_assoc, ← List.map_append]
      congr 1
      have hdd : finfo.drop (planLimit finfo.length n_component (batch_start + batch_size)) =
          (finfo.drop batch_start).drop
            (planLimit finfo.length n_component (batch_start + batch_size) - batch_start) := by
        rw [List.drop_drop]
        congr 1
        omega
      rw [hdd, List.take_append_drop]
    · rw [if_neg h]
      have hb : batch_start = finfo.length := by omega
      subst hb
      simp

instance : IsTotal FileEntry fun a b => a.timestamp ≤ b.timestamp :=
  ⟨fun a b => le_total a.timestamp b.timestamp⟩

instance : IsTrans FileEntry fun a b => a.timestamp ≤ b.timestamp :=
  ⟨fun _ _ _ h1 h2 => le_trans h1 h2⟩

/--
C1, counterexample to the claim as stated: for `total = 10`,
`batch_size = 2`, `min_batch = 5` the batch-planning loop emits the range
`(0, 2)`, whose length `2` is below `min_batch = 5`, although it is not the
sole range of the plan (the plan has three ranges) and `total ≥ min_batch`.
The merge policy of lines 91-93 only ever repairs the final range, so when
`batch_size < min_batch` every non-final range is undersized.
-/
theorem c1_counterexample :
    (0, 2) ∈ fitPlan 10 2 5 ∧ ¬ (5 ≤ 2 - 0) ∧ ¬ (10 < 5) ∧
      (fitPlan 10 2 5).length = 3 := by decide

/--
C1 (amended): for every `total ≥ 0`, `batch_size ≥ 1`, `min_batch ≥ 1`
with additionally `min_batch ≤ batch_size`, every range emitted by the
batch-planning loop of `fit_ipca_partial` has length at least `min_batch`,
except possibly the sole range of the plan when `total < min_batch`.
-/
theorem c1_min_batch_lengths (total batch_size min_batch : Nat) (hbs : 1 ≤ batch_size)
    (hmb : 1 ≤ min_batch) (hmbs : min_batch ≤ batch_size) :
    ∀ r ∈ fitPlan total batch_size min_batch,
      min_batch ≤ r.2 - r.1 ∨
        (total < min_batch ∧ fitPlan total batch_size min_batch = [r]) := by
  intro r hr
  by_cases hle : min_batch ≤ total
  · left
    have hlen := fitPlanLoop_len_ge total batch_size min_batch hmbs (total + 1) 0 (by omega)
    rw [Nat.zero_add] at hlen
    exact hlen r hr
  · right
    push_neg at hle
    rcases Nat.eq_zero_or_pos total with h0 | h0
    · subst h0
      rw [fitPlan_zero] at hr
      simp at hr
    · have hplan := fitPlan_of_lt total batch_size min_batch h0 hle
      rw [hplan] at hr
      simp at hr
      subst hr
      exact ⟨hle, hplan⟩

/-- Witness for C1 at `total = 105`, `batch_size = 50`, `min_batch = 10`,
instantiated at the plan's first range `(0, 50)`. -/
theorem c1_witness :
    10 ≤ ((0, 50) : Nat × Nat).2 - ((0, 50) : Nat × Nat).1 ∨
      (105 < 10 ∧ fitPlan 105 50 10 = [((0, 50) : Nat × Nat)]) :=
  c1_min_batch_lengths 105 50 10 (by decide) (by decide) (by decide) (0, 50) (by decide)

/--
C2, counterexample to the claim as stated: with a 10-entry manifest,
`n_component = 5` and `batch_size = 2`, the very first batch submitted to
`partial_fit` has 2 rows, fewer than `n_component = 5`, and the
`InsufficientBatchSize` branch fires even though the manifest (10 entries)
is not smaller than `n_component`.
-/
theorem c2_counterexample :
    fit_ipca_partial (List.range 10) 5 2 0 =
      ([[0, 1]], Except.error PyError.insufficientBatchSize) ∧
      5 ≤ (List.range 10).length :=
  ⟨rfl, by decide⟩

/--
C2 (amended): when additionally `batch_size ≥ n_component`, every batch the
fit pass submits to `partial_fit` has at least `n_component` rows, outside
the degenerate case `finfo.length < n_component`; consequently the fit loop
completes without the `InsufficientBatchSize` error.
-/
theorem c2_fit_batches_viable (finfo : List α) (n_component batch_size : Nat)
    (hbs : 1 ≤ batch_size) (hnc : 1 ≤ n_component) (hncbs : n_component ≤ batch_size)
    (hdeg : n_component ≤ finfo.length) :
    ( fit_ipca_partial finfo n_component batch_size 0).2 = Except.ok () ∧
      ∀ b ∈ ( fit_ipca_partial finfo n_component batch_size 0).1,
        n_component ≤ b.length := by
  have h := fitLoop_ok finfo n_component batch_size hbs hncbs (finfo.length + 1) 0 []
    (by omega) (by omega) (by intro b hb; simp at hb)
  rw [Nat.zero_add] at h
  unfold fit_ipca_partial
  rw [if_neg (by simp)]
  exact h

/-- Witness for C2 at a 10-entry manifest with `n_component = 5`,
`batch_size = 8`. -/
theorem c2_witness :
    ( fit_ipca_partial (List.range 10) 5 8 0).2 = Except.ok () ∧
      ∀ b ∈ ( fit_ipca_partial (List.range 10) 5 8 0).1, 5 ≤ b.length :=
  c2_fit_batches_viable (List.range 10) 5 8 (by decide) (by decide) (by decide) (by decide)

/--
C3 (confirmed): for every `total ≥ 0`, `batch_size ≥ 1`, `min_batch ≥ 1`,
the ranges produced by the batching loop of `fit_ipca_partial` tile
`[0, total)` exactly — the first range starts at `0`, every range is
non-empty, each range starts where the previous one ended, and the last
range ends at `total` (`covers`), which entails contiguity,
non-overlapping and exact coverage; for `total = 0` the plan is empty.
The proof runs the loop with fuel `total + 1`, which also establishes that
the source's `while` loop terminates under these preconditions.
-/
theorem c3_plan_partitions (total batch_size min_batch : Nat) (hbs : 1 ≤ batch_size)
    (hmb : 1 ≤ min_batch) :
    covers 0 total (fitPlan total batch_size min_batch) ∧
      (total = 0 → fitPlan total batch_size min_batch = []) := by
  constructor
  · have h := fitPlanLoop_covers total batch_size min_batch hbs (total + 1) 0 (by omega)
      (by omega)
    rw [Nat.zero_add] at h
    exact h
  · intro h
    subst h
    exact fitPlan_zero batch_size min_batch

/-- Witness for C3 at `total = 105`, `batch_size = 50`, `min_batch = 10`. -/
theorem c3_witness :
    covers 0 105 (fitPlan 105 50 10) ∧ (105 = 0 → fitPlan 105 50 10 = []) :=
  c3_plan_partitions 105 50 10 (by decide) (by decide)

/--
C4 (confirmed): for `total = 105`, `batch_size = 50`, `min_batch = 10` the
batching loop emits exactly the ranges `[0, 50)` and `[50, 105)`: the
undersized trailing range `[100, 105)` is merged into its predecessor.
-/
theorem c4_merge_boundary : fitPlan 105 50 10 = [(0, 50), (50, 105)] := by decide

/--
C5 (confirmed): the fit pass's batching loop (lines 83-100) and the
transform pass's batching loop (lines 111-130) compute the identical
sequence of index ranges from the same `(total, batch_size, n_component)`;
the plan is a deterministic function of these inputs alone.
-/
theorem c5_plans_identical (total batch_size n_component : Nat) (hbs : 1 ≤ batch_size)
    (hnc : 1 ≤ n_component) :
    fitPlan total batch_size n_component = transformPlan total batch_size n_component :=
  fitPlanLoop_eq_transformPlanLoop total batch_size n_component (total + 1) 0 batch_size

/-- Witness for C5 at `total = 105`, `batch_size = 50`, `n_component = 10`. -/
theorem c5_witness : fitPlan 105 50 10 = transformPlan 105 50 10 :=
  c5_plans_identical 105 50 10 (by decide) (by decide)

/--
C6 (confirmed): for every non-empty manifest (and positive batch size, the
planner's standing precondition), the transform pass returns exactly the
row-wise projection of the manifest in manifest order: row `i` of the
resulting matrix is the projection of manifest entry `i`, with no
reordering, duplication or omission.
-/
theorem c6_projection_alignment (finfo : List α) (project : α → β)
    (n_component batch_size : Nat) (hbs : 1 ≤ batch_size) (hne : finfo ≠ []) :
    transform_ipca_partial finfo project n_component batch_size =
      some (finfo.map project) := by
  have hlen : 0 < finfo.length := List.length_pos.mpr hne
  unfold transform_ipca_partial
  rw [transformLoop_succ, if_pos hlen]
  dsimp only
  have h1 : 0 < planLimit finfo.length n_component batch_size := by
    have h := lt_planLimit finfo.length n_component 0 batch_size hbs hlen
    rwa [Nat.zero_add] at h
  rw [transformLoop_some finfo project n_component batch_size hbs finfo.length
    (planLimit finfo.length n_component batch_size) _
    (planLimit_le finfo.length n_component batch_size) (by omega)]
  simp only [List.drop_zero, Nat.sub_zero]
  rw [← List.map_append, List.take_append_drop]

/-- Witness for C6 at the manifest `[10, 20, 30]` with projection `x + 1`,
`n_component = 2`, `batch_size = 2`. -/
theorem c6_witness :
    transform_ipca_partial [10, 20, 30] (fun x => x + 1) 2 2 =
      some ([10, 20, 30].map (fun x => x + 1)) :=
  c6_projection_alignment [10, 20, 30] (fun x => x + 1) 2 2 (by decide) (by decide)

/--
C7 (code bug in the source): for every nonzero random seed the fit pass
does not shuffle-and-fit; line 78 (`flist = flist.sample(...)`) reads the
local name `flist`, which is never bound (the parameter is called
`finfo`), so the call raises `UnboundLocalError` before a single file is
read, and even absent the crash the shuffled list would never be used (the
loop iterates over `finfo`).  The claim (and spec §4.3) describes the
intended seeded pre-shuffle; the code is a one-word slip.
-/
theorem c7_shuffle_crashes (finfo : List α) (n_component batch_size : Nat) (rseed : Int)
    (h : rseed ≠ 0) :
    fit_ipca_partial finfo n_component batch_size rseed =
      ([], Except.error PyError.unboundLocalFlist) := by
  unfold fit_ipca_partial
  rw [if_pos h]

/-- Witness for C7 at a 3-entry manifest with `rseed = 1`. -/
theorem c7_witness :
    fit_ipca_partial ([0, 1, 2] : List Nat) 2 2 1 =
      ([], Except.error PyError.unboundLocalFlist) :=
  c7_shuffle_crashes [0, 1, 2] 2 2 1 (by decide)

/--
C8, counterexample to the claim as stated: with the non-positive component
count `n_component = 0`, a 5-file manifest and `batch_size = 128`, the fit
pass is not rejected before I/O — it reads the whole manifest (the I/O
trace contains the 5-row batch) and the loop finishes without raising any
error; no `InvalidConfiguration` check exists anywhere in the code.
-/
theorem c8_counterexample :
    ( fit_ipca_partial (List.range 5) 0 128 0).1 = [[0, 1, 2, 3, 4]] ∧
      ( fit_ipca_partial (List.range 5) 0 128 0).2 = Except.ok () ∧
      ( fit_ipca_partial (List.range 5) 0 128 0).1 ≠ [] :=
  ⟨rfl, rfl, by decide⟩

/--
C8 (amended): the code performs no configuration validation: with a
non-positive component count (`n_component = 0`) and a non-empty manifest,
the fit pass always reads at least one batch of raster files (its I/O
trace is non-empty), so I/O is attempted under the invalid configuration
rather than being rejected beforehand.
-/
theorem c8_no_validation (finfo : List α) (batch_size : Nat) (hbs : 1 ≤ batch_size)
    (hne : finfo ≠ []) :
    ( fit_ipca_partial finfo 0 batch_size 0).1 ≠ [] := by
  have hlen : 0 < finfo.length := List.length_pos.mpr hne
  unfold fit_ipca_partial
  rw [if_neg (by simp)]
  rw [fitLoop_succ, if_pos hlen, if_neg (by omega)]
  obtain ⟨extra, hex⟩ := fitLoop_reads_extend finfo 0 batch_size finfo.length
    (planLimit finfo.length 0 batch_size) (planLimit finfo.length 0 batch_size + batch_size)
    ([] ++ [(finfo.drop 0).take (planLimit finfo.length 0 batch_size - 0)])
  rw [hex]
  simp

/-- Witness for C8 at the manifest `[5, 6]` with `batch_size = 4`. -/
theorem c8_witness : ( fit_ipca_partial ([5, 6] : List Nat) 0 4 0).1 ≠ [] :=
  c8_no_validation [5, 6] 4 (by decide) (by decide)

/--
C9, counterexample to the claim as stated: for the file
`1999.nc0123456.nc` and suffix `.nc`, the scanner's timestamp is
`1999012345` — `str.replace` deletes **every** occurrence of the suffix,
including the interior `.nc` — whereas the first 10 characters of the
filename after stripping the suffix from the end would be `1999.nc012`.
-/
theorem c9_counterexample :
    (list_era5_files [("d".toList, "1999.nc0123456.nc".toList)] ".nc".toList).map
        FileEntry.timestamp = ["1999012345".toList] ∧
      specStripEndTimestamp ".nc".toList "1999.nc0123456.nc".toList =
        "1999.nc012".toList ∧
      ¬ ("1999012345".toList = "1999.nc012".toList) := by decide

/--
C9 (amended): for every directory walk and suffix, the manifest builder
keeps exactly the files whose names end with the suffix, assigns each kept
file the first 10 characters of its name after removing **all**
occurrences of the suffix (not only a trailing one), joins root and name
into the locator, and returns the rows sorted ascending by timestamp: the
result is a permutation of the filtered-and-derived rows that is sorted by
the timestamp field.
-/
theorem c9_scan_contract (walk : List (List Char × List Char)) (suffix : List Char) :
    (list_era5_files walk suffix).Sorted (fun a b => a.timestamp ≤ b.timestamp) ∧
      (list_era5_files walk suffix).Perm
        (walk.filterMap fun rf =>
          if suffix.isSuffixOf rf.2 then
            some { timestamp := (pyRemove suffix rf.2).take 10,
                   xuri := rf.1 ++ [Char.ofNat 47] ++ rf.2 }
          else none) := by
  constructor
  · exact List.sorted_insertionSort _ _
  · exact List.perm_insertionSort _ _

/--
C10 (confirmed): on an empty manifest the transform pass returns `None`
(not an empty matrix): the loop guard `batch_start < nSample` fails
immediately, so the accumulator keeps its initial `None` value.
-/
theorem c10_empty_transform_none (project : α → β) (n_component batch_size : Nat) :
    transform_ipca_partial ([] : List α) project n_component batch_size = none := rfl
end IpcaEra5
